import Mathlib

/-!
# Verification of the portfolio-tester core

Shallow embedding, in Lean 4, of the core pipeline of the `portfolio-tester`
repository: the cashflow builder (`engine/cashflows.py`), the Monte-Carlo
path simulator (`engine/simulator.py`), the bootstrap return sampler
(`sampling/bootstrap.py`) and the money-weighted IRR metric
(`analytics/metrics.py`).

Python floats are modelled as `ℚ`; a raised Python exception is modelled as
`Except.error`; numpy arrays are modelled as (nested) lists; `None` is
modelled as `Option.none`.  Randomness is factored out: every function that
consumes random draws takes the drawn values as an explicit argument, so the
theorems quantify over all possible draws.
-/

deriving instance DecidableEq for Except

namespace PortfolioTester

/-- The epsilon floor `1e-12` used by the simulator for denominators. -/
def eps : ℚ := 1 / 10 ^ 12

/-! ## Goals and the cashflow builder (`engine/cashflows.py`) -/

/-- `config.Goal`: a recurring signed cashflow rule. -/
structure Goal where
  name : String
  amount : ℚ
  start_month : ℕ
  frequency : ℕ
  repeats : ℕ
  real : Bool
deriving DecidableEq, Repr

/-- `_step_months_from_frequency`: `int(12 // freq)`.  Python raises
`ZeroDivisionError` when `freq = 0`; every other input floor-divides. -/
def step_months_from_frequency (freq : ℕ) : Except String ℕ :=
  if freq = 0 then .error "ZeroDivisionError" else .ok (12 / freq)

/-- `np.cumprod` of a list with a running accumulator. -/
def cumprodFrom (acc : ℚ) : List ℚ → List ℚ
  | [] => []
  | x :: xs => (acc * x) :: cumprodFrom (acc * x) xs

/-- `np.cumprod(1.0 + infl_path)`: entry `j` is `∏_{i ≤ j} (1 + infl i)`. -/
def inflCumList (infl : List ℚ) : List ℚ :=
  cumprodFrom 1 (infl.map (fun x => 1 + x))

/-- The amount credited for a payment of goal `g` due at month `due`:
`amt = float(g.amount)`, multiplied by `infl_cum[due-1]` when
`g.real and infl_cum is not None and due > 0`. -/
def amtOf (g : Goal) (inflCum : Option (List ℚ)) (due : ℕ) : ℚ :=
  if g.real = true ∧ inflCum.isSome ∧ 0 < due then
    g.amount * ((inflCum.getD []).getD (due - 1) 0)
  else
    g.amount

/-- `cf[due] += amt` (numpy in-place add at index `due`; a no-op past the
end of the vector, which never happens in the builder since `due <
horizon`). -/
def addAt (cf : List ℚ) (i : ℕ) (x : ℚ) : List ℚ :=
  cf.set i (cf.getD i 0 + x)

/-- The inner `for _ in range(int(g.repeats))` loop of
`build_cashflow_vector`: starting from `due`, add `amt due` at every due
month `< horizon`, stepping by `step`, `r` times. -/
def goalLoop (horizon : ℕ) (amt : ℕ → ℚ) (step : ℕ) : ℕ → ℕ → List ℚ → List ℚ
  | _, 0, cf => cf
  | due, r + 1, cf =>
      goalLoop horizon amt step (due + step) r
        (if due < horizon then addAt cf due (amt due) else cf)

/-- The outer `for g in goals` loop of `build_cashflow_vector`. -/
def applyGoals (horizon : ℕ) (inflCum : Option (List ℚ)) :
    List Goal → List ℚ → Except String (List ℚ)
  | [], cf => .ok cf
  | g :: gs, cf =>
      match step_months_from_frequency g.frequency with
      | .error e => .error e
      | .ok step =>
          applyGoals horizon inflCum gs
            (goalLoop horizon (amtOf g inflCum) step g.start_month g.repeats cf)

/-- `build_cashflow_vector(goals, horizon_m, infl_path)`: a length-`horizon`
vector of end-of-month cashflows; `infl_cum = cumprod(1+infl_path)` when an
inflation path is given. -/
def build_cashflow_vector (goals : List Goal) (horizon_m : ℕ)
    (infl_path : Option (List ℚ)) : Except String (List ℚ) :=
  applyGoals horizon_m (infl_path.map inflCumList) goals
    (List.replicate horizon_m 0)

example :
    build_cashflow_vector
      [⟨"save", 100, 0, 12, 3, false⟩] 5 none = .ok [100, 100, 100, 0, 0] := by
  norm_num [build_cashflow_vector, applyGoals, goalLoop, addAt, amtOf,
    step_months_from_frequency, List.replicate, List.set, List.getD]

example :
    build_cashflow_vector
      [⟨"odd", 100, 0, 5, 3, false⟩] 5 none = .ok [100, 0, 100, 0, 100] := by
  norm_num [build_cashflow_vector, applyGoals, goalLoop, addAt, amtOf,
    step_months_from_frequency, List.replicate, List.set, List.getD]

/-! ## The month-by-month path simulator (`engine/simulator.py`)

`MonteCarloSimulator.run_with_cashflows` runs `n_sims` independent paths as
one batched loop; the batch is a pointwise map of the single-path state
machine embedded here.  `SimParams` carries the constructor arguments
(`weights`, `starting_balance`, `rebalance_every_months`) together with one
path's monthly returns `R` and its prebuilt cashflow vector `cf`. -/

structure SimParams where
  w : List ℚ
  startBal : ℚ
  rebM : ℕ
  R : ℕ → List ℚ
  cf : ℕ → ℚ

/-- One path's mutable state: the per-asset dollar allocation, the recorded
balances (`balances[0] = starting_balance`), the monthly time-weighted
returns, and the failure month (`none` embeds the sentinel `-1`). -/
structure PathState where
  alloc : List ℚ
  balances : List ℚ
  twrr : List ℚ
  failure : Option ℕ
deriving DecidableEq, Repr

/-- `alloc *= (1.0 + R_paths[:, t, :])`. -/
def applyRet (alloc r : List ℚ) : List ℚ :=
  List.zipWith (fun a x => a * (1 + x)) alloc r

/-- `alloc = np.tile(self.w, (n_sims, 1)) * self.starting_balance` and
`balances[:, 0] = self.starting_balance`, for one path. -/
def initState (P : SimParams) : PathState :=
  ⟨P.w.map (fun wi => wi * P.startBal), [P.startBal], [], none⟩

/-- The body of `for t in range(T)` for one path: returns, TWRR, cashflow,
ruin marking, clamping, and reallocation. -/
def stepPath (P : SimParams) (t : ℕ) (st : PathState) : PathState :=
  let alloc1 := applyRet st.alloc (P.R t)
  let port := alloc1.sum
  let tw := port / max (st.balances.getLastD 0) eps - 1
  let post0 := port + P.cf t
  let failure := if post0 < 0 ∧ st.failure = none then some t else st.failure
  let post := if post0 < 0 then 0 else post0
  let alloc2 :=
    if (t + 1) % P.rebM = 0 then P.w.map (fun wi => post * wi)
    else alloc1.map (fun a => a * (post / max port eps))
  ⟨alloc2, st.balances ++ [post], st.twrr ++ [tw], failure⟩

/-- The state of one path after the first `t` months of the loop. -/
def simState (P : SimParams) : ℕ → PathState
  | 0 => initState P
  | t + 1 => stepPath P t (simState P t)

/-- `port` at month `t`: the pre-cashflow portfolio value
`alloc.sum` after applying month `t`'s returns. -/
def portAt (P : SimParams) (t : ℕ) : ℚ :=
  (applyRet (simState P t).alloc (P.R t)).sum

/-- `port_after_cf` at month `t` before clamping: `port + cf_paths[:, t]`. -/
def rawPost (P : SimParams) (t : ℕ) : ℚ :=
  portAt P t + P.cf t

/-- `port_after_cf` after the `np.where(port_after_cf < 0, 0.0, ...)` clamp;
this is the balance recorded at month `t+1`. -/
def postAt (P : SimParams) (t : ℕ) : ℚ :=
  if rawPost P t < 0 then 0 else rawPost P t

/-! ## The bootstrap return sampler (`sampling/bootstrap.py`)

Calendar months are embedded as serial numbers `m : ℕ` with
`year m = m / 12` (the embedding of `d.year`); the historical table is a
list of return rows plus the aligned month index.  The raw inflation input
is an association list month ↦ rate, embedding a `pd.Series` with its own
index; `reindex(...).fillna(0.0)` becomes a lookup with default `0`. -/

/-- The calendar year of a serial month number (`d.year`). -/
def yearOf (m : ℕ) : ℕ := m / 12

/-- Insert into a sorted list, keeping order. -/
def insertSorted (x : ℕ) : List ℕ → List ℕ
  | [] => [x]
  | y :: ys => if x ≤ y then x :: y :: ys else y :: insertSorted x ys

/-- Insertion sort, used to embed the sorting done by `np.unique`. -/
def insertionSort : List ℕ → List ℕ
  | [] => []
  | x :: xs => insertSorted x (insertionSort xs)

/-- `np.unique`: the sorted list of distinct values. -/
def sortedUnique (l : List ℕ) : List ℕ := insertionSort l.dedup

/-- `ReturnSampler`: the state built by `__init__` — the returns rows, the
reindexed inflation vector, and the month index. -/
structure ReturnSampler where
  rets : List (List ℚ)
  infl : List ℚ
  months : List ℕ
deriving DecidableEq, Repr

/-- `ReturnSampler.__init__(rets_m, infl_m)`:
`self.infl = infl_m.reindex(rets_m.index).fillna(0.0)`. -/
def ReturnSampler.init (rets_m : List (List ℚ)) (idx : List ℕ)
    (infl_m : List (ℕ × ℚ)) : ReturnSampler :=
  ⟨rets_m, idx.map (fun m => (infl_m.lookup m).getD 0), idx⟩

/-- `self.years = np.array([d.year for d in self.months])`. -/
def ReturnSampler.years (s : ReturnSampler) : List ℕ := s.months.map yearOf

/-- `self.unique_years = np.unique(self.years)`. -/
def ReturnSampler.unique_years (s : ReturnSampler) : List ℕ :=
  sortedUnique s.years

/-- `self.year_to_idx[y] = np.where(self.years == y)[0]`: the ordered row
positions whose year is `y`. -/
def year_to_idx (years : List ℕ) (y : ℕ) : List ℕ :=
  (List.range years.length).filter (fun i => years.getD i 0 = y)

/-- Gather `R = A[monthly_idx, :]` and `CPI = I[monthly_idx]` for one
matrix of row indices. -/
def gather (s : ReturnSampler) (rowsIdx : List (List ℕ)) :
    List (List (List ℚ)) × List (List ℚ) :=
  (rowsIdx.map (fun row => row.map (fun i => s.rets.getD i [])),
   rowsIdx.map (fun row => row.map (fun i => s.infl.getD i 0)))

/-- `single_month` mode: `draws` is the matrix
`rng.integers(0, A.shape[0], size=(n_sims, horizon_m))`. -/
def sample_single_month (s : ReturnSampler) (draws : List (List ℕ)) :
    List (List (List ℚ)) × List (List ℚ) :=
  gather s draws

/-- The per-path index sequence of `single_year` mode: concatenate each
drawn year's rows in calendar order, then truncate to the horizon. -/
def singleYearRow (s : ReturnSampler) (horizon_m : ℕ) (yc : List ℕ) :
    List ℕ :=
  (yc.flatMap (year_to_idx s.years)).take horizon_m

/-- `single_year` mode: `year_choices` is the matrix
`rng.choice(self.unique_years, size=(n_sims, ceil(horizon_m/12)))`. -/
def sample_single_year (s : ReturnSampler) (horizon_m : ℕ)
    (year_choices : List (List ℕ)) :
    List (List (List ℚ)) × List (List ℚ) :=
  gather s (year_choices.map (singleYearRow s horizon_m))

/-- The rows contributed by one block of `k` consecutive years starting at
`start_y`: for `j in range(k)`, the year used is
`ys[(pos + j) % len(ys)]` where `pos = y_to_pos[start_y]`. -/
def block_indices (years ys : List ℕ) (k : ℕ) (start_y : ℕ) : List ℕ :=
  (List.range k).flatMap
    (fun j => year_to_idx years (ys.getD ((ys.indexOf start_y + j) % ys.length) 0))

/-- The per-path index sequence of `block_years` mode. -/
def blockYearsRow (s : ReturnSampler) (k horizon_m : ℕ) (srow : List ℕ) :
    List ℕ :=
  (srow.flatMap (block_indices s.years s.unique_years k)).take horizon_m

/-- `block_years` mode: `starts` is the matrix
`rng.choice(ys, size=(n_sims, ceil(horizon_m/(12*k))))`. -/
def sample_block_years (s : ReturnSampler) (k horizon_m : ℕ)
    (starts : List (List ℕ)) :
    List (List (List ℚ)) × List (List ℚ) :=
  gather s (starts.map (blockYearsRow s k horizon_m))

/-- `ReturnSampler.sample`: dispatch on `cfg.mode`; an unknown mode raises
`ValueError(f"Unknown sampling mode: {cfg.mode}")`.  The random draws are
passed in explicitly; `n_sims` is carried by the draw matrix's row count. -/
def ReturnSampler.sample (s : ReturnSampler) (horizon_m _n_sims : ℕ)
    (mode : String) (block_years : ℕ) (draws : List (List ℕ)) :
    Except String (List (List (List ℚ)) × List (List ℚ)) :=
  if mode = "single_month" then .ok (sample_single_month s draws)
  else if mode = "single_year" then .ok (sample_single_year s horizon_m draws)
  else if mode = "block_years" then
    .ok (sample_block_years s block_years horizon_m draws)
  else .error ("Unknown sampling mode: " ++ mode)

/-! ## Money-weighted IRR (`analytics/metrics.py`)

`npf.irr` is a floating-point root finder; it is abstracted as a parameter
`solveIRR : List ℚ → Option ℚ`, where `none` embeds both a raised exception
and a not-a-number result.  Everything `mwrr_irr` itself does — building the
series, annualizing by `×12`, isolating failures per path — is embedded
exactly. -/

/-- The series `[-balances[s,0]] + cashflows[s].tolist() + [balances[s,-1]]`
built by `mwrr_irr` for one path. -/
def mwrr_series (startB : ℚ) (cfs : List ℚ) (endB : ℚ) : List ℚ :=
  -startB :: (cfs ++ [endB])

/-- Modelled from the spec: the series `[−start_balance, cashflow_1, …,
cashflow_T + end_balance]` that §4.4 claims `mwrr_irr` builds — length
`T+1`, final month's cashflow merged with the ending balance. -/
def mwrr_series_spec (startB : ℚ) (cfs : List ℚ) (endB : ℚ) : List ℚ :=
  -startB :: (cfs.dropLast ++ [cfs.getLastD 0 + endB])

/-- `mwrr_irr(cashflows, balances)`: per path, solve the series and multiply
by `12.0`; `none` (not-a-number) on solver failure, per path. -/
def mwrr_irr (solveIRR : List ℚ → Option ℚ)
    (cashflows : List (List ℚ)) (balances : List (List ℚ)) :
    List (Option ℚ) :=
  (cashflows.zip balances).map
    (fun p =>
      (solveIRR (mwrr_series (p.2.getD 0 0) p.1 (p.2.getLastD 0))).map
        (fun r => r * 12))

/-! ## List access helpers -/

theorem getD_map_lt {α β : Type} (f : α → β) :
    ∀ (l : List α) (n : ℕ), n < l.length → ∀ (d : β) (d' : α),
      (l.map f).getD n d = f (l.getD n d')
  | [], n, h, _, _ => absurd h (by simp)
  | _ :: _, 0, _, _, _ => rfl
  | _ :: xs, n + 1, h, d, d' =>
      getD_map_lt f xs n (by simpa using h) d d'

theorem getD_append_lt {α : Type} :
    ∀ (l l' : List α) (n : ℕ) (d : α), n < l.length →
      (l ++ l').getD n d = l.getD n d
  | [], _, n, _, h => absurd h (by simp)
  | _ :: _, _, 0, _, _ => rfl
  | _ :: xs, l', n + 1, d, h =>
      getD_append_lt xs l' n d (by simpa using h)

theorem getD_concat_self {α : Type} :
    ∀ (l : List α) (x d : α), (l ++ [x]).getD l.length d = x
  | [], _, _ => rfl
  | _ :: xs, x, d => getD_concat_self xs x d

theorem getD_set_self {α : Type} :
    ∀ (l : List α) (i : ℕ) (x d : α), i < l.length →
      (l.set i x).getD i d = x
  | [], i, _, _, h => absurd h (by simp)
  | _ :: _, 0, _, _, _ => rfl
  | _ :: xs, i + 1, x, d, h =>
      getD_set_self xs i x d (by simpa using h)

theorem getD_set_ne {α : Type} :
    ∀ (l : List α) (i j : ℕ) (x d : α), i ≠ j →
      (l.set i x).getD j d = l.getD j d
  | [], _, _, _, _, _ => by simp
  | _ :: _, 0, 0, _, _, h => absurd rfl h
  | _ :: _, 0, _ + 1, _, _, _ => rfl
  | _ :: _, _ + 1, 0, _, _, _ => rfl
  | _ :: xs, i + 1, j + 1, x, d, h =>
      getD_set_ne xs i j x d (fun e => h (by omega))

theorem getD_replicate_self {α : Type} :
    ∀ (n m : ℕ) (x : α), (List.replicate n x).getD m x = x
  | 0, _, _ => by simp
  | _ + 1, 0, _ => rfl
  | n + 1, m + 1, x => getD_replicate_self n m x

theorem getD_zip {α β : Type} :
    ∀ (l : List α) (l' : List β) (n : ℕ) (d₁ : α) (d₂ : β),
      n < l.length → n < l'.length →
      (l.zip l').getD n (d₁, d₂) = (l.getD n d₁, l'.getD n d₂)
  | [], _, n, _, _, h, _ => absurd h (by simp)
  | _ :: _, [], n, _, _, _, h => absurd h (by simp)
  | _ :: _, _ :: _, 0, _, _, _, _ => rfl
  | _ :: xs, _ :: ys, n + 1, d₁, d₂, h₁, h₂ =>
      getD_zip xs ys n d₁ d₂ (by simpa using h₁) (by simpa using h₂)

/-! ## Cashflow-builder lemmas -/

/-- Total payment of goal `g` landing at month `m` of a horizon-`horizon`
vector: the `k`-th repeat is due at `start_month + k * (12 / frequency)`
and is dropped when that month is `≥ horizon`. -/
def goalContrib (ic : Option (List ℚ)) (horizon : ℕ) (g : Goal) (m : ℕ) : ℚ :=
  ∑ k ∈ Finset.range g.repeats,
    (if g.start_month + k * (12 / g.frequency) = m ∧ m < horizon
     then amtOf g ic m else 0)

theorem goalLoop_length (horizon : ℕ) (amt : ℕ → ℚ) (step : ℕ) :
    ∀ (r due : ℕ) (cf : List ℚ),
      (goalLoop horizon amt step due r cf).length = cf.length
  | 0, _, _ => rfl
  | r + 1, due, cf => by
      rw [goalLoop, goalLoop_length horizon amt step r]
      by_cases h : due < horizon <;> simp [h, addAt]

theorem goalLoop_getD (horizon : ℕ) (amt : ℕ → ℚ) (step : ℕ) :
    ∀ (r due : ℕ) (cf : List ℚ), cf.length = horizon → ∀ m : ℕ,
      (goalLoop horizon amt step due r cf).getD m 0
        = cf.getD m 0 + ∑ k ∈ Finset.range r,
            (if due + k * step = m ∧ m < horizon then amt m else 0) := by
  intro r
  induction r with
  | zero => intro due cf _ m; simp [goalLoop]
  | succ r ih =>
      intro due cf hlen m
      rw [goalLoop]
      set cf' := if due < horizon then addAt cf due (amt due) else cf with hcf'
      have hlen' : cf'.length = horizon := by
        rw [hcf']; by_cases h : due < horizon <;> simp [h, addAt, hlen]
      rw [ih (due + step) cf' hlen' m]
      have hshift : ∀ k : ℕ, due + (k + 1) * step = due + step + k * step := by
        intro k; ring
      have hbase : cf'.getD m 0
          = cf.getD m 0 + (if due = m ∧ m < horizon then amt m else 0) := by
        rw [hcf']
        by_cases h : due < horizon
        · simp only [if_pos h, addAt]
          by_cases he : due = m
          · subst he
            rw [getD_set_self cf due _ 0 (by omega)]
            simp [h]
          · rw [getD_set_ne cf due m _ 0 he]
            simp [he]
        · simp only [if_neg h]
          by_cases he : due = m
          · subst he; simp [fun hc : due < horizon => h hc]
          · simp [he]
      rw [Finset.sum_range_succ', hbase]
      have : ∀ k : ℕ,
          (if due + (k + 1) * step = m ∧ m < horizon then amt m else 0)
            = (if due + step + k * step = m ∧ m < horizon then amt m else 0) := by
        intro k; rw [hshift k]
      simp only [this, Nat.zero_mul, Nat.add_zero]
      ring

theorem applyGoals_ok (horizon : ℕ) (ic : Option (List ℚ)) :
    ∀ (goals : List Goal) (cf : List ℚ), cf.length = horizon →
      (∀ g ∈ goals, g.frequency ≠ 0) →
      ∃ v, applyGoals horizon ic goals cf = .ok v ∧ v.length = horizon ∧
        ∀ m : ℕ, v.getD m 0
          = cf.getD m 0 + (goals.map (fun g => goalContrib ic horizon g m)).sum := by
  intro goals
  induction goals with
  | nil => intro cf hlen _; exact ⟨cf, rfl, hlen, by simp⟩
  | cons g gs ih =>
      intro cf hlen hfreq
      have hg : g.frequency ≠ 0 := hfreq g (by simp)
      have hstep : step_months_from_frequency g.frequency = .ok (12 / g.frequency) := by
        simp [step_months_from_frequency, hg]
      set cf' := goalLoop horizon (amtOf g ic) (12 / g.frequency)
        g.start_month g.repeats cf with hcf'
      have hlen' : cf'.length = horizon := by
        rw [hcf', goalLoop_length]; exact hlen
      obtain ⟨v, hv, hvlen, hvget⟩ :=
        ih cf' hlen' (fun g' hg' => hfreq g' (by simp [hg']))
      refine ⟨v, ?_, hvlen, ?_⟩
      · rw [applyGoals, hstep]; exact hv
      · intro m
        rw [hvget m, hcf',
          goalLoop_getD horizon (amtOf g ic) (12 / g.frequency)
            g.repeats g.start_month cf hlen m]
        simp only [List.map_cons, List.sum_cons, goalContrib]
        ring

theorem build_cashflow_vector_ok (goals : List Goal) (horizon : ℕ)
    (infl : Option (List ℚ)) (hfreq : ∀ g ∈ goals, g.frequency ≠ 0) :
    ∃ v, build_cashflow_vector goals horizon infl = .ok v ∧
      v.length = horizon ∧
      ∀ m : ℕ, v.getD m 0
        = (goals.map (fun g => goalContrib (infl.map inflCumList) horizon g m)).sum := by
  obtain ⟨v, hv, hlen, hget⟩ :=
    applyGoals_ok horizon (infl.map inflCumList) goals
      (List.replicate horizon 0) (by simp) hfreq
  exact ⟨v, hv, hlen, fun m => by
    have := hget m
    rwa [getD_replicate_self horizon m 0, zero_add] at this⟩

/-- `amtOf` for a real goal due after month 0 reads `infl_cum[due-1]`. -/
theorem amtOf_real (g : Goal) (icl : List ℚ) (m : ℕ)
    (hreal : g.real = true) (hm : 0 < m) :
    amtOf g (some icl) m = g.amount * icl.getD (m - 1) 0 := by
  simp [amtOf, hreal, hm]

theorem cumprodFrom_getD :
    ∀ (l : List ℚ) (acc : ℚ) (i : ℕ), i < l.length →
      (cumprodFrom acc l).getD i 0 = acc * (l.take (i + 1)).prod
  | [], _, i, h => absurd h (by simp)
  | x :: xs, acc, 0, _ => by simp [cumprodFrom]
  | x :: xs, acc, i + 1, h => by
      have ih := cumprodFrom_getD xs (acc * x) i (by simpa using h)
      show ((acc * x) :: cumprodFrom (acc * x) xs).getD (i + 1) 0
        = acc * ((x :: xs).take (i + 2)).prod
      rw [List.getD_cons_succ, ih, List.take_succ_cons, List.prod_cons]
      ring

theorem inflCumList_getD (infl : List ℚ) (due : ℕ)
    (h1 : 0 < due) (h2 : due ≤ infl.length) :
    (inflCumList infl).getD (due - 1) 0
      = ((infl.take due).map (fun x => 1 + x)).prod := by
  have hlen : due - 1 < (infl.map (fun x => 1 + x)).length := by
    simp; omega
  rw [inflCumList, cumprodFrom_getD _ 1 (due - 1) hlen, one_mul,
    show due - 1 + 1 = due by omega, ← List.map_take]

/-! ## Claim C5: cashflow scheduling -/

/-- C5: the built cashflow vector has length `horizon_m`; each goal with
frequency `f` pays its (possibly inflation-indexed) amount at the months
`start_month + k * (12 / f)` for `k ∈ [0, repeats)`, payments due at or
after the horizon are dropped, and simultaneous payments from different
goals are summed; in particular goal(amount 100, start 0, frequency 12,
repeats 3, real false) with horizon 5 yields `[100, 100, 100, 0, 0]`. -/
theorem cashflow_scheduling (goals : List Goal) (horizon : ℕ)
    (infl : Option (List ℚ)) (hfreq : ∀ g ∈ goals, g.frequency ≠ 0) :
    (∃ v, build_cashflow_vector goals horizon infl = .ok v ∧
      v.length = horizon ∧
      ∀ m : ℕ, v.getD m 0
        = (goals.map (fun g => goalContrib (infl.map inflCumList) horizon g m)).sum) ∧
    build_cashflow_vector [⟨"goal", 100, 0, 12, 3, false⟩] 5 none
      = .ok [100, 100, 100, 0, 0] := by
  refine ⟨build_cashflow_vector_ok goals horizon infl hfreq, ?_⟩
  norm_num [build_cashflow_vector, applyGoals, goalLoop, addAt, amtOf,
    step_months_from_frequency, List.replicate, List.set, List.getD]

/-- Witness for C5 at a concrete input: two goals, one monthly from month 0
and one quarterly from month 1, over horizon 7. -/
theorem cashflow_scheduling_witness :
    (∀ g ∈ [(⟨"a", 10, 0, 12, 7, false⟩ : Goal), ⟨"b", 5, 1, 4, 2, false⟩],
        g.frequency ≠ 0) ∧
    ((∃ v, build_cashflow_vector
        [(⟨"a", 10, 0, 12, 7, false⟩ : Goal), ⟨"b", 5, 1, 4, 2, false⟩] 7
        (none : Option (List ℚ)) = .ok v ∧
      v.length = 7 ∧
      ∀ m : ℕ, v.getD m 0
        = ([(⟨"a", 10, 0, 12, 7, false⟩ : Goal), ⟨"b", 5, 1, 4, 2, false⟩].map
            (fun g => goalContrib ((none : Option (List ℚ)).map inflCumList) 7 g m)).sum) ∧
    build_cashflow_vector [⟨"goal", 100, 0, 12, 3, false⟩] 5 none
      = .ok [100, 100, 100, 0, 0]) :=
  ⟨by decide,
   cashflow_scheduling
     [⟨"a", 10, 0, 12, 7, false⟩, ⟨"b", 5, 1, 4, 2, false⟩] 7 none (by decide)⟩

/-! ## Claim C6: real (inflation-indexed) goals -/

/-- C6: a `real` goal's payment due at month `m > 0` is the nominal amount
times `∏_{i ∈ [0, m)} (1 + inflation i)`, the cumulative compounding factor
up to but excluding the due month; a payment due at month 0 is never
inflated; and amount 100 due at month 12 under constant monthly inflation
1/100 is `100 · (101/100)^12`. -/
theorem real_goal_indexing (g : Goal) (infl : List ℚ) (horizon : ℕ)
    (hreal : g.real = true) (hfreq : g.frequency ≠ 0)
    (hlen : horizon ≤ infl.length) :
    (∃ v, build_cashflow_vector [g] horizon (some infl) = .ok v ∧
      v.length = horizon ∧
      ∀ m : ℕ, m < horizon →
        v.getD m 0 = ∑ k ∈ Finset.range g.repeats,
          (if g.start_month + k * (12 / g.frequency) = m then
            (if m = 0 then g.amount
             else g.amount * ((infl.take m).map (fun x => 1 + x)).prod)
           else 0)) ∧
    (∃ v, build_cashflow_vector [⟨"rg", 100, 12, 12, 1, true⟩] 13
        (some (List.replicate 13 (1 / 100))) = .ok v ∧
      v.getD 12 0 = 100 * (101 / 100) ^ 12) := by
  constructor
  · obtain ⟨v, hv, hvlen, hvget⟩ :=
      build_cashflow_vector_ok [g] horizon (some infl) (by simpa using hfreq)
    refine ⟨v, hv, hvlen, ?_⟩
    intro m hm
    rw [hvget m]
    simp only [List.map_cons, List.map_nil, List.sum_cons, List.sum_nil,
      add_zero, goalContrib]
    apply Finset.sum_congr rfl
    intro k _
    by_cases hk : g.start_month + k * (12 / g.frequency) = m
    · rw [if_pos (show _ ∧ m < horizon from ⟨hk, hm⟩), if_pos hk]
      by_cases hm0 : m = 0
      · subst hm0
        simp [amtOf]
      · have hmpos : 0 < m := Nat.pos_of_ne_zero hm0
        rw [if_neg hm0,
          show Option.map inflCumList (some infl) = some (inflCumList infl)
            from rfl,
          amtOf_real g (inflCumList infl) m hreal hmpos,
          inflCumList_getD infl m hmpos (by omega)]
    · rw [if_neg (fun hc => hk hc.1), if_neg hk]
  · obtain ⟨v, hv, hvlen, hvget⟩ :=
      build_cashflow_vector_ok [⟨"rg", 100, 12, 12, 1, true⟩] 13
        (some (List.replicate 13 (1 / 100))) (by decide)
    refine ⟨v, hv, ?_⟩
    rw [hvget 12]
    simp only [List.map_cons, List.map_nil, List.sum_cons, List.sum_nil,
      add_zero, goalContrib]
    rw [Finset.sum_range_one,
      if_pos (show 12 + 0 * (12 / 12) = 12 ∧ 12 < 13 by norm_num),
      show Option.map inflCumList (some (List.replicate 13 (1 / 100 : ℚ)))
        = some (inflCumList (List.replicate 13 (1 / 100))) from rfl,
      amtOf_real _ _ 12 rfl (by norm_num),
      inflCumList_getD _ 12 (by norm_num) (by simp),
      List.take_replicate, List.map_replicate, List.prod_replicate]
    norm_num

/-- Witness for C6 at a concrete input: the quarterly real goal of amount 7
from month 2 over horizon 9 with inflation path of nine 1/50 months. -/
theorem real_goal_indexing_witness :
    ((⟨"q", 7, 2, 4, 2, true⟩ : Goal).real = true ∧
      (⟨"q", 7, 2, 4, 2, true⟩ : Goal).frequency ≠ 0 ∧
      9 ≤ (List.replicate 9 (1 / 50 : ℚ)).length) ∧
    ((∃ v, build_cashflow_vector [(⟨"q", 7, 2, 4, 2, true⟩ : Goal)] 9
        (some (List.replicate 9 (1 / 50 : ℚ))) = .ok v ∧
      v.length = 9 ∧
      ∀ m : ℕ, m < 9 →
        v.getD m 0 = ∑ k ∈ Finset.range (⟨"q", 7, 2, 4, 2, true⟩ : Goal).repeats,
          (if (⟨"q", 7, 2, 4, 2, true⟩ : Goal).start_month
                + k * (12 / (⟨"q", 7, 2, 4, 2, true⟩ : Goal).frequency) = m then
            (if m = 0 then (⟨"q", 7, 2, 4, 2, true⟩ : Goal).amount
             else (⟨"q", 7, 2, 4, 2, true⟩ : Goal).amount
               * (((List.replicate 9 (1 / 50 : ℚ)).take m).map (fun x => 1 + x)).prod)
           else 0)) ∧
    (∃ v, build_cashflow_vector [⟨"rg", 100, 12, 12, 1, true⟩] 13
        (some (List.replicate 13 (1 / 100))) = .ok v ∧
      v.getD 12 0 = 100 * (101 / 100) ^ 12)) :=
  ⟨⟨rfl, by decide, by simp⟩,
   real_goal_indexing ⟨"q", 7, 2, 4, 2, true⟩ (List.replicate 9 (1 / 50))
     9 rfl (by decide) (by simp)⟩

/-! ## Simulator lemmas -/

theorem simState_balances_succ (P : SimParams) (t : ℕ) :
    (simState P (t + 1)).balances = (simState P t).balances ++ [postAt P t] :=
  rfl

theorem simState_failure_succ (P : SimParams) (t : ℕ) :
    (simState P (t + 1)).failure
      = if rawPost P t < 0 ∧ (simState P t).failure = none then some t
        else (simState P t).failure :=
  rfl

theorem simState_alloc_succ (P : SimParams) (t : ℕ) :
    (simState P (t + 1)).alloc
      = if (t + 1) % P.rebM = 0 then P.w.map (fun wi => postAt P t * wi)
        else (applyRet (simState P t).alloc (P.R t)).map
          (fun a => a * (postAt P t / max (portAt P t) eps)) :=
  rfl

theorem simState_balances_length (P : SimParams) :
    ∀ t : ℕ, (simState P t).balances.length = t + 1
  | 0 => rfl
  | t + 1 => by
      rw [simState_balances_succ, List.length_append,
        simState_balances_length P t]
      rfl

theorem simState_balances_getD (P : SimParams) :
    ∀ (T t : ℕ), t < T →
      (simState P T).balances.getD (t + 1) 0 = postAt P t := by
  intro T
  induction T with
  | zero => intro t h; omega
  | succ T ih =>
      intro t h
      rcases Nat.lt_succ_iff_lt_or_eq.mp h with h' | h'
      · rw [simState_balances_succ,
          getD_append_lt _ _ _ _ (by rw [simState_balances_length]; omega),
          ih t h']
      · subst h'
        rw [simState_balances_succ,
          show t + 1 = (simState P t).balances.length from
            (simState_balances_length P t).symm,
          getD_concat_self]

theorem simState_failure_none_iff (P : SimParams) :
    ∀ T : ℕ, (simState P T).failure = none ↔
      ∀ s, s < T → ¬ rawPost P s < 0 := by
  intro T
  induction T with
  | zero =>
      constructor
      · intro _ s hs; omega
      · intro _; rfl
  | succ T ih =>
      rw [simState_failure_succ]
      by_cases hc : rawPost P T < 0 ∧ (simState P T).failure = none
      · rw [if_pos hc]
        constructor
        · intro h; exact absurd h (by simp)
        · intro h; exact absurd hc.1 (h T (by omega))
      · rw [if_neg hc]
        constructor
        · intro hnone s hs
          rcases Nat.lt_succ_iff_lt_or_eq.mp hs with h' | h'
          · exact (ih.mp hnone) s h'
          · subst h'; intro hneg; exact hc ⟨hneg, hnone⟩
        · intro h
          exact ih.mpr (fun s hs => h s (by omega))

theorem simState_failure_some_iff (P : SimParams) :
    ∀ (T t : ℕ), (simState P T).failure = some t ↔
      (t < T ∧ rawPost P t < 0 ∧ ∀ s, s < t → ¬ rawPost P s < 0) := by
  intro T
  induction T with
  | zero =>
      intro t
      constructor
      · intro h; exact absurd h (by simp [simState, initState])
      · rintro ⟨h, _⟩; omega
  | succ T ih =>
      intro t
      rw [simState_failure_succ]
      by_cases hc : rawPost P T < 0 ∧ (simState P T).failure = none
      · rw [if_pos hc]
        constructor
        · intro h
          have ht : T = t := Option.some.inj h
          subst ht
          exact ⟨by omega, hc.1, (simState_failure_none_iff P T).mp hc.2⟩
        · rintro ⟨hlt, hneg, hfirst⟩
          rcases Nat.lt_succ_iff_lt_or_eq.mp hlt with h' | h'
          · have := (ih t).mpr ⟨h', hneg, hfirst⟩
            rw [hc.2] at this
            exact absurd this (by simp)
          · subst h'; rfl
      · rw [if_neg hc]
        constructor
        · intro h
          obtain ⟨hlt, hneg, hfirst⟩ := (ih t).mp h
          exact ⟨by omega, hneg, hfirst⟩
        · rintro ⟨hlt, hneg, hfirst⟩
          rcases Nat.lt_succ_iff_lt_or_eq.mp hlt with h' | h'
          · exact (ih t).mpr ⟨h', hneg, hfirst⟩
          · subst h'
            have hfT : (simState P t).failure ≠ none := fun hn => hc ⟨hneg, hn⟩
            obtain ⟨t0, ht0⟩ : ∃ t0, (simState P t).failure = some t0 := by
              cases hfl : (simState P t).failure with
              | none => exact absurd hfl hfT
              | some a => exact ⟨a, rfl⟩
            obtain ⟨h1, h2, _⟩ := (ih t0).mp ht0
            exact absurd h2 (hfirst t0 h1)

/-! ## Claim C7: ruin marking is first-crossing and sticky -/

/-- C7: `failure_month = t` exactly when `t` is the first month whose
post-cashflow value `rawPost` is negative (so it is never overwritten by a
later negative month), a never-negative path keeps the sentinel (`none`
embeds `-1`), and at a failure the balance recorded at month `t+1` is 0. -/
theorem ruin_marking (P : SimParams) (T t : ℕ) :
    ((simState P T).failure = some t ↔
      (t < T ∧ rawPost P t < 0 ∧ ∀ s, s < t → ¬ rawPost P s < 0)) ∧
    ((simState P T).failure = none ↔ ∀ s, s < T → ¬ rawPost P s < 0) ∧
    ((simState P T).failure = some t →
      (simState P T).balances.getD (t + 1) 0 = 0) := by
  refine ⟨simState_failure_some_iff P T t, simState_failure_none_iff P T, ?_⟩
  intro h
  obtain ⟨hlt, hneg, _⟩ := (simState_failure_some_iff P T t).mp h
  rw [simState_balances_getD P T t hlt, postAt, if_pos hneg]

/-- A run on which C7 is exercised concretely: one asset, start balance 100,
cashflows −50, −200 then −1 forever; the path first fails at month 1 and the
post-cashflow value is negative again at every later month. -/
def exFail : SimParams :=
  ⟨[1], 100, 12, fun _ => [0],
   fun t => if t = 0 then -50 else if t = 1 then -200 else -1⟩

/-- Witness for C7: on `exFail`, after 3 months the failure month is 1 (not
overwritten by month 2's negative post-cashflow value) and the recorded
balances are `[100, 50, 0, 0]`. -/
theorem ruin_marking_witness :
    (((simState exFail 3).failure = some 1 ↔
      (1 < 3 ∧ rawPost exFail 1 < 0 ∧ ∀ s, s < 1 → ¬ rawPost exFail s < 0)) ∧
     ((simState exFail 3).failure = none ↔ ∀ s, s < 3 → ¬ rawPost exFail s < 0) ∧
     ((simState exFail 3).failure = some 1 →
       (simState exFail 3).balances.getD (1 + 1) 0 = 0)) ∧
    (simState exFail 3).failure = some 1 ∧
    rawPost exFail 2 < 0 ∧
    (simState exFail 3).balances = [100, 50, 0, 0] := by
  refine ⟨ruin_marking exFail 3 1, ?_, ?_, ?_⟩
  all_goals norm_num [simState, stepPath, initState, applyRet, rawPost, portAt,
    eps, exFail, max_def]
  all_goals decide

/-! ## Claim C3: behaviour of a path after failure -/

theorem applyRet_allZero (r : List ℚ) :
    ∀ alloc : List ℚ, (∀ x ∈ alloc, x = 0) →
      ∀ x ∈ applyRet alloc r, x = 0 := by
  intro alloc
  induction alloc generalizing r with
  | nil => intro _ x hx; simp [applyRet] at hx
  | cons a as ih =>
      intro hz x hx
      cases r with
      | nil => simp [applyRet] at hx
      | cons b bs =>
          simp only [applyRet, List.zipWith_cons_cons, List.mem_cons] at hx
          rcases hx with hx | hx
          · rw [hx, hz a (by simp), zero_mul]
          · exact ih bs (fun y hy => hz y (by simp [hy])) x hx

theorem portAt_of_allZero (P : SimParams) (t : ℕ)
    (h : ∀ x ∈ (simState P t).alloc, x = 0) : portAt P t = 0 := by
  rw [portAt]
  exact List.sum_eq_zero (applyRet_allZero (P.R t) _ h)

theorem alloc_succ_allZero (P : SimParams) (t : ℕ)
    (hpost : postAt P t = 0) :
    ∀ x ∈ (simState P (t + 1)).alloc, x = 0 := by
  rw [simState_alloc_succ]
  by_cases hreb : (t + 1) % P.rebM = 0
  · rw [if_pos hreb]
    intro x hx
    obtain ⟨wi, _, hwx⟩ := List.mem_map.mp hx
    rw [← hwx, hpost, zero_mul]
  · rw [if_neg hreb]
    intro x hx
    obtain ⟨a, _, hax⟩ := List.mem_map.mp hx
    rw [← hax, hpost, zero_div, mul_zero]

theorem postAt_of_allZero (P : SimParams) (t : ℕ)
    (halloc : ∀ x ∈ (simState P t).alloc, x = 0) (hcf : P.cf t ≤ 0) :
    postAt P t = 0 := by
  have hport := portAt_of_allZero P t halloc
  have hraw : rawPost P t ≤ 0 := by rw [rawPost, hport, zero_add]; exact hcf
  rw [postAt]
  rcases lt_or_eq_of_le hraw with h | h
  · rw [if_pos h]
  · rw [h, if_neg (lt_irrefl (0 : ℚ))]

theorem failed_path_allZero (P : SimParams) (t : ℕ)
    (hfail : rawPost P t < 0) (hcf : ∀ s, t < s → P.cf s ≤ 0) :
    ∀ d : ℕ, ∀ x ∈ (simState P (t + 1 + d)).alloc, x = 0 := by
  intro d
  induction d with
  | zero =>
      exact alloc_succ_allZero P t (by rw [postAt, if_pos hfail])
  | succ d ih =>
      have : t + 1 + (d + 1) = (t + 1 + d) + 1 := by omega
      rw [this]
      exact alloc_succ_allZero P (t + 1 + d)
        (postAt_of_allZero P (t + 1 + d) ih (hcf _ (by omega)))

theorem failed_path_post_zero (P : SimParams) (t : ℕ)
    (hfail : rawPost P t < 0) (hcf : ∀ s, t < s → P.cf s ≤ 0) :
    ∀ s, t ≤ s → postAt P s = 0 := by
  intro s hs
  rcases Nat.eq_or_lt_of_le hs with h | h
  · rw [← h, postAt, if_pos hfail]
  · obtain ⟨d, hd⟩ : ∃ d, s = t + 1 + d := ⟨s - t - 1, by omega⟩
    subst hd
    exact postAt_of_allZero P _ (failed_path_allZero P t hfail hcf d)
      (hcf _ (by omega))

/-- C3 (amended): once a path's post-cashflow value goes negative at month
`t` it is clamped to zero and keeps zero balance and an all-zero allocation
at every later month — provided every scheduled cashflow after month `t` is
non-positive.  (The unamended claim, with arbitrary later cashflows, is
refuted by `failed_path_revival`.) -/
theorem failed_path_stays_zero (P : SimParams) (t T : ℕ)
    (hfail : rawPost P t < 0) (hcf : ∀ s, t < s → P.cf s ≤ 0) :
    (∀ m, t < m → m ≤ T → (simState P T).balances.getD m 0 = 0) ∧
    (∀ m, t < m → m ≤ T → ∀ x ∈ (simState P m).alloc, x = 0) := by
  constructor
  · intro m hm1 hm2
    obtain ⟨s, hs⟩ : ∃ s, m = s + 1 := ⟨m - 1, by omega⟩
    subst hs
    rw [simState_balances_getD P T s (by omega)]
    exact failed_path_post_zero P t hfail hcf s (by omega)
  · intro m hm1 _
    obtain ⟨d, hd⟩ : ∃ d, m = t + 1 + d := ⟨m - t - 1, by omega⟩
    subst hd
    exact failed_path_allZero P t hfail hcf d

/-- A run refuting unamended C3: one asset, start balance 100, a withdrawal
of 200 at month 0 (ruin), then a contribution of 50 at month 1. -/
def exRevive : SimParams :=
  ⟨[1], 100, 12, fun _ => [0],
   fun t => if t = 0 then -200 else if t = 1 then 50 else 0⟩

/-- Counterexample to C3 as stated: on `exRevive` the path fails at month 0
(post-cashflow value −100 < 0, balance clamped to 0), yet the later positive
contribution of 50 at month 1 makes the recorded balance at month 2 equal
50, not 0. -/
theorem failed_path_revival :
    (simState exRevive 2).failure = some 0 ∧
    rawPost exRevive 0 < 0 ∧
    (simState exRevive 2).balances = [100, 0, 50] ∧
    (simState exRevive 2).balances.getD 2 0 = 50 ∧
    ¬ (simState exRevive 2).balances.getD 2 0 = 0 := by
  norm_num [simState, stepPath, initState, applyRet, rawPost, portAt,
    eps, exRevive, max_def, List.getD]

/-- Witness for the amended C3 on a concrete run: start balance 10, a
withdrawal of 30 at month 0, no cashflow afterwards; every later balance is
zero and every later allocation is all-zero. -/
theorem failed_path_stays_zero_witness :
    (rawPost (SimParams.mk [1] 10 12 (fun _ => [0])
        (fun t => if t = 0 then -30 else 0)) 0 < 0 ∧
      (∀ s, 0 < s → (SimParams.mk [1] 10 12 (fun _ => [0])
        (fun t => if t = 0 then -30 else 0)).cf s ≤ 0)) ∧
    ((∀ m, 0 < m → m ≤ 3 →
        (simState (SimParams.mk [1] 10 12 (fun _ => [0])
          (fun t => if t = 0 then -30 else 0)) 3).balances.getD m 0 = 0) ∧
     (∀ m, 0 < m → m ≤ 3 →
        ∀ x ∈ (simState (SimParams.mk [1] 10 12 (fun _ => [0])
          (fun t => if t = 0 then -30 else 0)) m).alloc, x = 0)) := by
  refine ⟨⟨?_, ?_⟩, failed_path_stays_zero _ 0 3 ?_ ?_⟩
  · norm_num [rawPost, portAt, simState, initState, applyRet]
  · intro s hs
    simp only []
    rw [if_neg (by omega)]
  · norm_num [rawPost, portAt, simState, initState, applyRet]
  · intro s hs
    simp only []
    rw [if_neg (by omega)]

/-! ## Claim C8: rebalance cadence -/

/-- C8: at every month `t` with `(t+1)` an exact multiple of the rebalance
interval, the allocation is reset to exactly `weights × post`; at every
other month the post-return allocation is scaled by the single factor
`post / max port eps` — so drifted proportions are preserved and the
cashflow neither buys nor sells a specific asset outside rebalance
months. -/
theorem rebalance_cadence (P : SimParams) (t : ℕ) (_hreb : 0 < P.rebM) :
    ((t + 1) % P.rebM = 0 →
      (simState P (t + 1)).alloc = P.w.map (fun wi => postAt P t * wi)) ∧
    ((t + 1) % P.rebM ≠ 0 →
      (simState P (t + 1)).alloc
        = (applyRet (simState P t).alloc (P.R t)).map
            (fun a => a * (postAt P t / max (portAt P t) eps)) ∧
      ∃ c : ℚ, (simState P (t + 1)).alloc
        = (applyRet (simState P t).alloc (P.R t)).map (fun a => a * c)) := by
  constructor
  · intro h
    rw [simState_alloc_succ, if_pos h]
  · intro h
    refine ⟨?_, postAt P t / max (portAt P t) eps, ?_⟩
    all_goals rw [simState_alloc_succ, if_neg h]

/-- A two-asset run with rebalance interval 2 and unequal returns, so the
allocation drifts away from target weights at odd months. -/
def exReb : SimParams :=
  ⟨[1 / 2, 1 / 2], 100, 2, fun _ => [1 / 10, 0], fun _ => 0⟩

/-- Witness for C8: on `exReb`, month 1 (with `(1+1) % 2 = 0`) rebalances to
`weights × post` — concretely `[221/4, 221/4]` — while month 0 (with
`(0+1) % 2 ≠ 0`) only rescales the drifted allocation `[55, 50]`. -/
theorem rebalance_cadence_witness :
    (0 < exReb.rebM ∧ (1 + 1) % exReb.rebM = 0 ∧ (0 + 1) % exReb.rebM ≠ 0) ∧
    (((1 + 1) % exReb.rebM = 0 →
      (simState exReb (1 + 1)).alloc = exReb.w.map (fun wi => postAt exReb 1 * wi)) ∧
     ((1 + 1) % exReb.rebM ≠ 0 →
      (simState exReb (1 + 1)).alloc
        = (applyRet (simState exReb 1).alloc (exReb.R 1)).map
            (fun a => a * (postAt exReb 1 / max (portAt exReb 1) eps)) ∧
      ∃ c : ℚ, (simState exReb (1 + 1)).alloc
        = (applyRet (simState exReb 1).alloc (exReb.R 1)).map (fun a => a * c))) ∧
    (((0 + 1) % exReb.rebM = 0 →
      (simState exReb (0 + 1)).alloc = exReb.w.map (fun wi => postAt exReb 0 * wi)) ∧
     ((0 + 1) % exReb.rebM ≠ 0 →
      (simState exReb (0 + 1)).alloc
        = (applyRet (simState exReb 0).alloc (exReb.R 0)).map
            (fun a => a * (postAt exReb 0 / max (portAt exReb 0) eps)) ∧
      ∃ c : ℚ, (simState exReb (0 + 1)).alloc
        = (applyRet (simState exReb 0).alloc (exReb.R 0)).map (fun a => a * c))) ∧
    (simState exReb 2).alloc = [221 / 4, 221 / 4] ∧
    (simState exReb 1).alloc = [55, 50] := by
  refine ⟨by norm_num [exReb], rebalance_cadence exReb 1 (by norm_num [exReb]),
    rebalance_cadence exReb 0 (by norm_num [exReb]), ?_, ?_⟩
  all_goals norm_num [simState, stepPath, initState, applyRet, eps, exReb, max_def]

/-! ## Sampler lemmas -/

theorem getD_mem {α : Type} :
    ∀ (l : List α) (i : ℕ) (d : α), i < l.length → l.getD i d ∈ l
  | [], i, _, h => absurd h (by simp)
  | x :: _, 0, _, _ => by simp
  | _ :: xs, i + 1, d, h => by
      simp only [List.getD_cons_succ, List.mem_cons]
      exact Or.inr (getD_mem xs i d (by simpa using h))

theorem year_to_idx_lt (years : List ℕ) (y i : ℕ)
    (h : i ∈ year_to_idx years y) : i < years.length := by
  have := (List.mem_filter.mp h).1
  exact List.mem_range.mp this

theorem block_indices_lt (years ys : List ℕ) (k st i : ℕ)
    (h : i ∈ block_indices years ys k st) : i < years.length := by
  obtain ⟨j, _, hj⟩ := List.mem_flatMap.mp h
  exact year_to_idx_lt _ _ _ hj

theorem years_length (s : ReturnSampler) : s.years.length = s.months.length := by
  rw [ReturnSampler.years, List.length_map]

/-! ## Claim C9: block_years wraparound and index safety -/

/-- C9: in `block_years` mode the year used at offset `j` of a block is the
one at position `(pos + j) mod (number of distinct years)` in the sorted
distinct-year list (this is definitional, stated as the first conjunct); a
block starting at the last distinct year therefore continues at the first
one; and every historical-row index produced by the year-based modes is in
range. -/
theorem block_years_wraparound (s : ReturnSampler) (k horizon st : ℕ)
    (hlen : s.months.length = s.rets.length)
    (hne : s.unique_years ≠ [])
    (hlast : s.unique_years.indexOf st = s.unique_years.length - 1) :
    (block_indices s.years s.unique_years k st
      = (List.range k).flatMap
          (fun j => year_to_idx s.years
            (s.unique_years.getD
              ((s.unique_years.indexOf st + j) % s.unique_years.length) 0))) ∧
    (s.unique_years.getD
        ((s.unique_years.indexOf st + 1) % s.unique_years.length) 0
      = s.unique_years.headD 0) ∧
    (∀ srow : List ℕ, ∀ i ∈ blockYearsRow s k horizon srow,
      i < s.rets.length) ∧
    (∀ yc : List ℕ, ∀ i ∈ singleYearRow s horizon yc, i < s.rets.length) := by
  have hyl : s.years.length = s.rets.length := by
    rw [years_length, hlen]
  refine ⟨rfl, ?_, ?_, ?_⟩
  · have hlenpos : 0 < s.unique_years.length :=
      List.length_pos.mpr hne
    rw [hlast, show s.unique_years.length - 1 + 1 = s.unique_years.length
        from by omega, Nat.mod_self]
    cases h : s.unique_years with
    | nil => exact absurd h hne
    | cons a l => rfl
  · intro srow i hi
    have hi' := List.take_subset _ _ hi
    obtain ⟨stY, _, hmem⟩ := List.mem_flatMap.mp hi'
    rw [← hyl]
    exact block_indices_lt s.years s.unique_years k stY i hmem
  · intro yc i hi
    have hi' := List.take_subset _ _ hi
    obtain ⟨y, _, hmem⟩ := List.mem_flatMap.mp hi'
    rw [← hyl]
    exact year_to_idx_lt s.years y i hmem

/-- A sampler over exactly the 24 months of calendar years 2000 and 2001
(month serial `m` has year `m / 12`). -/
def exWrap : ReturnSampler :=
  ReturnSampler.init (List.replicate 24 [(0 : ℚ)])
    ((List.range 24).map (fun i => 24000 + i)) []

/-- Witness for C9: `exWrap` has distinct years `[2000, 2001]`; a block
starting at 2001 (the most recent year, position 1) has its next year at
position `(1 + 1) % 2 = 0`, i.e. wraps to 2000, and all produced indices
are below the 24 historical rows. -/
theorem block_years_wraparound_witness :
    (exWrap.months.length = exWrap.rets.length ∧
      exWrap.unique_years ≠ [] ∧
      exWrap.unique_years.indexOf 2001 = exWrap.unique_years.length - 1) ∧
    ((block_indices exWrap.years exWrap.unique_years 2 2001
      = (List.range 2).flatMap
          (fun j => year_to_idx exWrap.years
            (exWrap.unique_years.getD
              ((exWrap.unique_years.indexOf 2001 + j) % exWrap.unique_years.length) 0))) ∧
    (exWrap.unique_years.getD
        ((exWrap.unique_years.indexOf 2001 + 1) % exWrap.unique_years.length) 0
      = exWrap.unique_years.headD 0) ∧
    (∀ srow : List ℕ, ∀ i ∈ blockYearsRow exWrap 2 36 srow,
      i < exWrap.rets.length) ∧
    (∀ yc : List ℕ, ∀ i ∈ singleYearRow exWrap 36 yc,
      i < exWrap.rets.length)) ∧
    exWrap.unique_years = [2000, 2001] ∧
    blockYearsRow exWrap 2 36 [2001]
      = (List.range 12).map (fun i => 12 + i) ++ List.range 12 := by
  refine ⟨⟨by decide, by decide, by decide⟩,
    block_years_wraparound exWrap 2 36 2001 (by decide) (by decide) (by decide),
    by decide, by decide⟩

/-! ## Claim C4: output shapes of `sample` -/

/-- C4 (amended): `single_month` mode always returns exact shapes
`(n_sims, horizon, n_assets)` and `(n_sims, horizon)` (the draw matrix has
one entry per simulated month); in `single_year` and `block_years` mode a
path's row has length `min horizon (number of months supplied by its drawn
years)` — exactly `horizon` when the drawn years supply at least `horizon`
months, but shorter when partial years leave too few, since a partial
year's shorter contribution is preserved rather than padded (the unamended
exact-shape claim is refuted by `sample_shape_counterexample`). -/
theorem sample_shapes (s : ReturnSampler) (horizon N k : ℕ)
    (hrect : ∀ r ∈ s.rets, r.length = N) :
    (∀ draws : List (List ℕ),
      (∀ row ∈ draws, row.length = horizon ∧ ∀ i ∈ row, i < s.rets.length) →
      (sample_single_month s draws).1.length = draws.length ∧
      (sample_single_month s draws).2.length = draws.length ∧
      (∀ r ∈ (sample_single_month s draws).1,
        r.length = horizon ∧ ∀ e ∈ r, e.length = N) ∧
      (∀ r ∈ (sample_single_month s draws).2, r.length = horizon)) ∧
    (∀ ycs : List (List ℕ),
      (sample_single_year s horizon ycs).1.length = ycs.length ∧
      (sample_single_year s horizon ycs).2.length = ycs.length ∧
      (∀ p, p < ycs.length →
        ((sample_single_year s horizon ycs).1.getD p []).length
          = min horizon ((ycs.getD p []).flatMap (year_to_idx s.years)).length ∧
        ((sample_single_year s horizon ycs).2.getD p []).length
          = min horizon ((ycs.getD p []).flatMap (year_to_idx s.years)).length) ∧
      (∀ p, p < ycs.length →
        horizon ≤ ((ycs.getD p []).flatMap (year_to_idx s.years)).length →
        ((sample_single_year s horizon ycs).1.getD p []).length = horizon)) ∧
    (∀ starts : List (List ℕ),
      (sample_block_years s k horizon starts).1.length = starts.length ∧
      (∀ p, p < starts.length →
        ((sample_block_years s k horizon starts).1.getD p []).length
          = min horizon
              ((starts.getD p []).flatMap
                (block_indices s.years s.unique_years k)).length)) := by
  refine ⟨?_, ?_, ?_⟩
  · intro draws hdraws
    refine ⟨by simp [sample_single_month, gather], by simp [sample_single_month, gather], ?_, ?_⟩
    · intro r hr
      obtain ⟨row, hrow, hmap⟩ := List.mem_map.mp hr
      constructor
      · rw [← hmap, List.length_map]; exact (hdraws row hrow).1
      · intro e he
        rw [← hmap] at he
        obtain ⟨i, hi, hie⟩ := List.mem_map.mp he
        rw [← hie]
        exact hrect _ (getD_mem s.rets i [] ((hdraws row hrow).2 i hi))
    · intro r hr
      obtain ⟨row, hrow, hmap⟩ := List.mem_map.mp hr
      rw [← hmap, List.length_map]; exact (hdraws row hrow).1
  · intro ycs
    refine ⟨by simp [sample_single_year, gather], by simp [sample_single_year, gather], ?_, ?_⟩
    · intro p hp
      constructor
      · rw [show (sample_single_year s horizon ycs).1
            = (ycs.map (singleYearRow s horizon)).map
                (fun row => row.map (fun i => s.rets.getD i [])) from rfl,
          getD_map_lt _ _ p (by simpa using hp) [] [],
          List.length_map,
          getD_map_lt _ _ p hp [] [],
          singleYearRow, List.length_take]
      · rw [show (sample_single_year s horizon ycs).2
            = (ycs.map (singleYearRow s horizon)).map
                (fun row => row.map (fun i => s.infl.getD i 0)) from rfl,
          getD_map_lt _ _ p (by simpa using hp) [] [],
          List.length_map,
          getD_map_lt _ _ p hp [] [],
          singleYearRow, List.length_take]
    · intro p hp hle
      rw [show (sample_single_year s horizon ycs).1
            = (ycs.map (singleYearRow s horizon)).map
                (fun row => row.map (fun i => s.rets.getD i [])) from rfl,
        getD_map_lt _ _ p (by simpa using hp) [] [],
        List.length_map,
        getD_map_lt _ _ p hp [] [],
        singleYearRow, List.length_take]
      omega
  · intro starts
    refine ⟨by simp [sample_block_years, gather], ?_⟩
    intro p hp
    rw [show (sample_block_years s k horizon starts).1
          = (starts.map (blockYearsRow s k horizon)).map
              (fun row => row.map (fun i => s.rets.getD i [])) from rfl,
      getD_map_lt _ _ p (by simpa using hp) [] [],
      List.length_map,
      getD_map_lt _ _ p hp [] [],
      blockYearsRow, List.length_take]

/-- A sampler whose history starts with a partial year: the last 6 months
of 1999 followed by all 12 months of 2000 (18 rows). -/
def exPartial : ReturnSampler :=
  ReturnSampler.init (List.replicate 18 [(0 : ℚ)])
    ((List.range 6).map (fun i => 23994 + i)
      ++ (List.range 12).map (fun i => 24000 + i)) []

/-- Counterexample to C4 as stated: on `exPartial`, a `single_year` draw of
the partial year 1999 for a 12-month horizon (one path, one drawn year =
`ceil(12/12)` as the mode requires) produces a return row of length 6, not
`horizon_months = 12` — the partial year's shorter contribution is
preserved, so the output shape is not `(n_sims, horizon_months, n_assets)`. -/
theorem sample_shape_counterexample :
    1999 ∈ exPartial.unique_years ∧
    exPartial.months.length = exPartial.rets.length ∧
    (sample_single_year exPartial 12 [[1999]]).1.length = 1 ∧
    ((sample_single_year exPartial 12 [[1999]]).1.getD 0 []).length = 6 ∧
    (6 : ℕ) ≠ 12 := by
  decide

/-- Witness for the amended C4 on `exPartial`: all rows have length 1, the
full year 2000 fills a 12-month horizon exactly, while the partial year
1999 gives `min 12 6 = 6` months. -/
theorem sample_shapes_witness :
    (∀ r ∈ exPartial.rets, r.length = 1) ∧
    ((∀ draws : List (List ℕ),
      (∀ row ∈ draws, row.length = 12 ∧ ∀ i ∈ row, i < exPartial.rets.length) →
      (sample_single_month exPartial draws).1.length = draws.length ∧
      (sample_single_month exPartial draws).2.length = draws.length ∧
      (∀ r ∈ (sample_single_month exPartial draws).1,
        r.length = 12 ∧ ∀ e ∈ r, e.length = 1) ∧
      (∀ r ∈ (sample_single_month exPartial draws).2, r.length = 12)) ∧
    (∀ ycs : List (List ℕ),
      (sample_single_year exPartial 12 ycs).1.length = ycs.length ∧
      (sample_single_year exPartial 12 ycs).2.length = ycs.length ∧
      (∀ p, p < ycs.length →
        ((sample_single_year exPartial 12 ycs).1.getD p []).length
          = min 12 ((ycs.getD p []).flatMap (year_to_idx exPartial.years)).length ∧
        ((sample_single_year exPartial 12 ycs).2.getD p []).length
          = min 12 ((ycs.getD p []).flatMap (year_to_idx exPartial.years)).length) ∧
      (∀ p, p < ycs.length →
        12 ≤ ((ycs.getD p []).flatMap (year_to_idx exPartial.years)).length →
        ((sample_single_year exPartial 12 ycs).1.getD p []).length = 12)) ∧
    (∀ starts : List (List ℕ),
      (sample_block_years exPartial 2 12 starts).1.length = starts.length ∧
      (∀ p, p < starts.length →
        ((sample_block_years exPartial 2 12 starts).1.getD p []).length
          = min 12
              ((starts.getD p []).flatMap
                (block_indices exPartial.years exPartial.unique_years 2)).length))) ∧
    ((sample_single_year exPartial 12 [[2000]]).1.getD 0 []).length = 12 ∧
    ((sample_single_year exPartial 12 [[1999]]).1.getD 0 []).length = 6 := by
  exact ⟨by decide, sample_shapes exPartial 12 1 2 (by decide), by decide, by decide⟩

/-! ## Claim C10: months missing from the inflation input sample as 0 -/

/-- C10: `__init__` reindexes the inflation series onto the returns
calendar with `fillna(0.0)`, so a month present in the returns table but
absent from the inflation input gets inflation exactly 0; consequently in
every mode a sampled CPI entry drawn from that row is 0 (no error, no
missing-value marker). -/
theorem missing_inflation_zero (rets_m : List (List ℚ)) (idx : List ℕ)
    (infl_m : List (ℕ × ℚ)) (horizon k i : ℕ)
    (hi : i < idx.length)
    (hmiss : infl_m.lookup (idx.getD i 0) = none) :
    (ReturnSampler.init rets_m idx infl_m).infl.getD i 0 = 0 ∧
    (∀ rows : List (List ℕ), ∀ p t : ℕ,
      p < rows.length → t < (rows.getD p []).length →
      (rows.getD p []).getD t 0 = i →
      ((gather (ReturnSampler.init rets_m idx infl_m) rows).2.getD p []).getD t 0
        = 0) ∧
    (∀ draws : List (List ℕ), ∀ p t : ℕ,
      p < draws.length → t < (draws.getD p []).length →
      (draws.getD p []).getD t 0 = i →
      ((sample_single_month (ReturnSampler.init rets_m idx infl_m) draws).2.getD
          p []).getD t 0 = 0) ∧
    (∀ ycs : List (List ℕ), ∀ p t : ℕ,
      p < ycs.length →
      t < (singleYearRow (ReturnSampler.init rets_m idx infl_m) horizon
            (ycs.getD p [])).length →
      (singleYearRow (ReturnSampler.init rets_m idx infl_m) horizon
          (ycs.getD p [])).getD t 0 = i →
      ((sample_single_year (ReturnSampler.init rets_m idx infl_m) horizon
          ycs).2.getD p []).getD t 0 = 0) ∧
    (∀ starts : List (List ℕ), ∀ p t : ℕ,
      p < starts.length →
      t < (blockYearsRow (ReturnSampler.init rets_m idx infl_m) k horizon
            (starts.getD p [])).length →
      (blockYearsRow (ReturnSampler.init rets_m idx infl_m) k horizon
          (starts.getD p [])).getD t 0 = i →
      ((sample_block_years (ReturnSampler.init rets_m idx infl_m) k horizon
          starts).2.getD p []).getD t 0 = 0) := by
  set s := ReturnSampler.init rets_m idx infl_m with hs
  have hinfl : s.infl.getD i 0 = 0 := by
    rw [hs, ReturnSampler.init,
      getD_map_lt (fun m => (infl_m.lookup m).getD 0) idx i hi 0 0, hmiss]
    rfl
  have hgather : ∀ rows : List (List ℕ), ∀ p t : ℕ,
      p < rows.length → t < (rows.getD p []).length →
      (rows.getD p []).getD t 0 = i →
      ((gather s rows).2.getD p []).getD t 0 = 0 := by
    intro rows p t hp ht hrow
    rw [show (gather s rows).2
        = rows.map (fun row => row.map (fun j => s.infl.getD j 0)) from rfl,
      getD_map_lt _ rows p hp [] [],
      getD_map_lt _ (rows.getD p []) t ht 0 0, hrow, hinfl]
  refine ⟨hinfl, hgather, hgather, ?_, ?_⟩
  · intro ycs p t hp ht hrow
    have hrows : (ycs.map (singleYearRow s horizon)).getD p []
        = singleYearRow s horizon (ycs.getD p []) :=
      getD_map_lt _ ycs p hp [] []
    exact hgather (ycs.map (singleYearRow s horizon)) p t
      (by simpa using hp) (by rwa [hrows]) (by rwa [hrows])
  · intro starts p t hp ht hrow
    have hrows : (starts.map (blockYearsRow s k horizon)).getD p []
        = blockYearsRow s k horizon (starts.getD p []) :=
      getD_map_lt _ starts p hp [] []
    exact hgather (starts.map (blockYearsRow s k horizon)) p t
      (by simpa using hp) (by rwa [hrows]) (by rwa [hrows])

/-- Witness for C10: a two-month calendar `[0, 1]` where the inflation
input only covers month 0 (with rate 3); the reindexed inflation of row 1
is 0 and a `single_month` draw of row 1 samples CPI 0. -/
theorem missing_inflation_zero_witness :
    (1 < [0, 1].length ∧
      ([(0, (3 : ℚ))] : List (ℕ × ℚ)).lookup (([0, 1] : List ℕ).getD 1 0) = none) ∧
    ((ReturnSampler.init [[5], [7]] [0, 1] [(0, 3)]).infl.getD 1 0 = 0 ∧
      (∀ rows : List (List ℕ), ∀ p t : ℕ,
        p < rows.length → t < (rows.getD p []).length →
        (rows.getD p []).getD t 0 = 1 →
        ((gather (ReturnSampler.init [[5], [7]] [0, 1] [(0, 3)]) rows).2.getD
            p []).getD t 0 = 0) ∧
      (∀ draws : List (List ℕ), ∀ p t : ℕ,
        p < draws.length → t < (draws.getD p []).length →
        (draws.getD p []).getD t 0 = 1 →
        ((sample_single_month (ReturnSampler.init [[5], [7]] [0, 1] [(0, 3)])
            draws).2.getD p []).getD t 0 = 0) ∧
      (∀ ycs : List (List ℕ), ∀ p t : ℕ,
        p < ycs.length →
        t < (singleYearRow (ReturnSampler.init [[5], [7]] [0, 1] [(0, 3)]) 2
              (ycs.getD p [])).length →
        (singleYearRow (ReturnSampler.init [[5], [7]] [0, 1] [(0, 3)]) 2
            (ycs.getD p [])).getD t 0 = 1 →
        ((sample_single_year (ReturnSampler.init [[5], [7]] [0, 1] [(0, 3)]) 2
            ycs).2.getD p []).getD t 0 = 0) ∧
      (∀ starts : List (List ℕ), ∀ p t : ℕ,
        p < starts.length →
        t < (blockYearsRow (ReturnSampler.init [[5], [7]] [0, 1] [(0, 3)]) 1 2
              (starts.getD p [])).length →
        (blockYearsRow (ReturnSampler.init [[5], [7]] [0, 1] [(0, 3)]) 1 2
            (starts.getD p [])).getD t 0 = 1 →
        ((sample_block_years (ReturnSampler.init [[5], [7]] [0, 1] [(0, 3)]) 1 2
            starts).2.getD p []).getD t 0 = 0)) ∧
    (sample_single_month (ReturnSampler.init [[5], [7]] [0, 1] [(0, 3)])
      [[1, 0]]).2 = [[0, 3]] := by
  exact ⟨⟨by decide, by decide⟩,
    missing_inflation_zero [[5], [7]] [0, 1] [(0, 3)] 2 1 1
      (by decide) (by decide), by decide⟩

/-! ## Claim C1: the IRR cashflow series -/

theorem getLastD_cons_append_last {α : Type} :
    ∀ (l : List α) (a x d : α), (a :: (l ++ [x])).getLastD d = x
  | [], _, _, _ => rfl
  | b :: l, _, x, d => getLastD_cons_append_last l b x d

/-- Counterexample to C1 as stated: for one monthly cashflow `5` between a
start balance of 100 and an end balance of 110, the code builds
`[-100, 5, 110]` — length `T+2` with the ending balance as a separate final
flow — not the spec's `[-100, 5+110] = [-100, 115]` of length `T+1` with the
final month's cashflow and the ending balance merged. -/
theorem mwrr_series_not_merged :
    mwrr_series 100 [5] 110 = [-100, 5, 110] ∧
    mwrr_series_spec 100 [5] 110 = [-100, 115] ∧
    mwrr_series 100 [5] 110 ≠ mwrr_series_spec 100 [5] 110 ∧
    (mwrr_series 100 [5] 110).length ≠ ([5] : List ℚ).length + 1 ∧
    (mwrr_series 100 [5] 110).getLastD 0 ≠ 5 + 110 := by
  norm_num [mwrr_series, mwrr_series_spec, List.getLastD]

/-- C1 (amended): `mwrr_irr` builds, per path, the series
`[−start_balance, cashflow_1, …, cashflow_T, end_balance]` — length `T+2`,
the ending balance appended as a separate final flow — hands it to the IRR
solver, annualizes the solved periodic rate by `×12`, and records `none`
(not-a-number) for a path whose solve fails while the other paths of the
batch are computed independently. -/
theorem mwrr_series_shape (solveIRR : List ℚ → Option ℚ)
    (C B : List (List ℚ)) (startB endB : ℚ) (cfs : List ℚ) (p : ℕ)
    (hp : p < C.length) (hpB : p < B.length) :
    (mwrr_series startB cfs endB).length = cfs.length + 2 ∧
    (mwrr_series startB cfs endB).getLastD 0 = endB ∧
    (mwrr_series startB cfs endB).headD 0 = -startB ∧
    (mwrr_irr solveIRR C B).length = min C.length B.length ∧
    (mwrr_irr solveIRR C B).getD p none
      = (solveIRR (mwrr_series ((B.getD p []).getD 0 0) (C.getD p [])
          ((B.getD p []).getLastD 0))).map (fun r => r * 12) := by
  refine ⟨by simp [mwrr_series], getLastD_cons_append_last cfs _ endB 0, rfl,
    by simp [mwrr_irr], ?_⟩
  rw [mwrr_irr,
    getD_map_lt _ (C.zip B) p (by rw [List.length_zip]; omega) none ([], []),
    getD_zip C B p [] [] hp hpB]

/-- Witness for C1 at a concrete input: two paths where the solver succeeds
(rate 1) only on series of length 4, so path 0 records `none` and path 1
records `some 12` — one failing path does not spoil the batch. -/
theorem mwrr_series_shape_witness :
    ((0 : ℕ) < 2 ∧ (0 : ℕ) < 2) ∧
    ((mwrr_series 100 [5] 110).length = ([5] : List ℚ).length + 2 ∧
     (mwrr_series 100 [5] 110).getLastD 0 = 110 ∧
     (mwrr_series 100 [5] 110).headD 0 = -100 ∧
     (mwrr_irr (fun l => if l.length = 4 then some 1 else none)
        [[5], [4, 4]] [[100, 110], [50, 60]]).length
       = min ([[5], [4, 4]] : List (List ℚ)).length
           ([[100, 110], [50, 60]] : List (List ℚ)).length ∧
     (mwrr_irr (fun l => if l.length = 4 then some 1 else none)
        [[5], [4, 4]] [[100, 110], [50, 60]]).getD 0 none
       = ((fun l : List ℚ => if l.length = 4 then some (1 : ℚ) else none)
           (mwrr_series ((([[100, 110], [50, 60]] : List (List ℚ)).getD 0 []).getD 0 0)
             (([[5], [4, 4]] : List (List ℚ)).getD 0 [])
             ((([[100, 110], [50, 60]] : List (List ℚ)).getD 0 []).getLastD 0))).map
           (fun r => r * 12)) ∧
    mwrr_irr (fun l => if l.length = 4 then some 1 else none)
      [[5], [4, 4]] [[100, 110], [50, 60]] = [none, some 12] := by
  refine ⟨⟨by decide, by decide⟩,
    mwrr_series_shape (fun l => if l.length = 4 then some 1 else none)
      [[5], [4, 4]] [[100, 110], [50, 60]] 100 110 [5] 0
      (by decide) (by decide), ?_⟩
  norm_num [mwrr_irr, mwrr_series]

/-! ## Claim C2: configuration errors -/

/-- Counterexample to C2 as stated: a frequency of 5 (not in {1, 4, 12})
raises nothing — `12 // 5 = 2` is used as the step, so the goal pays at
months 0, 2 and 4 — and a non-positive horizon raises nothing either:
`sample` with horizon 0 returns empty arrays. -/
theorem invalid_config_counterexample :
    ((5 : ℕ) ∉ ([1, 4, 12] : List ℕ)) ∧
    step_months_from_frequency 5 = .ok 2 ∧
    build_cashflow_vector [⟨"g", 100, 0, 5, 3, false⟩] 5 none
      = .ok [100, 0, 100, 0, 100] ∧
    (ReturnSampler.init [[0]] [0] []).sample 0 1 "single_month" 5 [[]]
      = .ok ([[]], [[]]) := by
  refine ⟨by decide, by decide, ?_, by decide⟩
  norm_num [build_cashflow_vector, applyGoals, goalLoop, addAt, amtOf,
    step_months_from_frequency, List.replicate, List.set, List.getD]

/-- C2 (amended): the only configuration error the pipeline raises is the
unknown-sampling-mode `ValueError`; a positive frequency outside {1, 4, 12}
is accepted (its step is `12 // freq`; the frequency domain is only a type
annotation), and a horizon of 0 produces empty, well-formed output rather
than an error. -/
theorem invalid_config_no_error :
    (∀ (s : ReturnSampler) (h n k : ℕ) (d : List (List ℕ)) (mode : String),
      mode ≠ "single_month" → mode ≠ "single_year" → mode ≠ "block_years" →
      s.sample h n mode k d = .error ("Unknown sampling mode: " ++ mode)) ∧
    (∀ (goals : List Goal) (h : ℕ) (infl : Option (List ℚ)),
      (∀ g ∈ goals, g.frequency ≠ 0) →
      ∃ v, build_cashflow_vector goals h infl = .ok v ∧ v.length = h) ∧
    (∀ (s : ReturnSampler) (n k : ℕ),
      s.sample 0 n "single_month" k (List.replicate n [])
        = .ok (List.replicate n [], List.replicate n [])) := by
  refine ⟨?_, ?_, ?_⟩
  · intro s h n k d mode h1 h2 h3
    rw [ReturnSampler.sample, if_neg h1, if_neg h2, if_neg h3]
  · intro goals h infl hf
    obtain ⟨v, hv, hlen, _⟩ := build_cashflow_vector_ok goals h infl hf
    exact ⟨v, hv, hlen⟩
  · intro s n k
    rw [ReturnSampler.sample, if_pos rfl]
    simp [sample_single_month, gather, List.map_replicate]

/-- Witness for the amended C2: mode `"bogus"` errors, while frequency 5
and horizon 0 go through without error. -/
theorem invalid_config_no_error_witness :
    ("bogus" ≠ "single_month" ∧ "bogus" ≠ "single_year"
      ∧ "bogus" ≠ "block_years"
      ∧ ∀ g ∈ [(⟨"g", 100, 0, 5, 3, false⟩ : Goal)], g.frequency ≠ 0) ∧
    (ReturnSampler.init [[0]] [0] []).sample 12 1 "bogus" 5 [[]]
      = .error ("Unknown sampling mode: " ++ "bogus") ∧
    (∃ v, build_cashflow_vector [(⟨"g", 100, 0, 5, 3, false⟩ : Goal)] 5 none
      = .ok v ∧ v.length = 5) ∧
    (ReturnSampler.init [[0]] [0] []).sample 0 3 "single_month" 5
      (List.replicate 3 []) = .ok (List.replicate 3 [], List.replicate 3 []) := by
  exact ⟨⟨by decide, by decide, by decide, by decide⟩,
    invalid_config_no_error.1 _ 12 1 5 [[]] "bogus"
      (by decide) (by decide) (by decide),
    invalid_config_no_error.2.1 _ 5 none (by decide),
    invalid_config_no_error.2.2 _ 3 5⟩

end PortfolioTester
